import Mathlib

/-!
Verification development for the OpenFermion-FQE core: the Configuration
Index (FciGraph), Excitation Map Builder, the FqeData state container with
its operator-application and evolution engines, the GSOHamiltonian object
and the generalized-doubles factorization entry checks.

The FqeData / FciGraph sources are not part of this source tree (only their
test suite is), so those components are modelled from the design
specification, with the concrete values pinned by the repository's test
suite `tests/fqe_data_test.py`.  `gso_hamiltonian.py` and
`generalized_doubles_factorization.py` are embedded from their sources.
-/

namespace FqeSpec

/-- Modelled from the spec: number of occupied orbitals (set bits) of a
configuration string `s` within a bit pattern of width `width`
(spec section 3, "Configuration string"). -/
def countBits (width s : ℕ) : ℕ :=
  (List.range width).countP fun i => s.testBit i

/-- Modelled from the spec: the Configuration Index enumeration of all valid
occupation strings for `nele` electrons in `norb` orbitals, as bit patterns
in ascending integer order (spec section 3, "Configuration Index"). -/
def stringList (norb nele : ℕ) : List ℕ :=
  (List.range (2 ^ norb)).filter fun s => countBits norb s == nele

/-- Rank-to-string lookup of the Configuration Index. -/
def stringOfRank (norb nele r : ℕ) : ℕ :=
  (stringList norb nele).getD r 0

/-- String-to-rank lookup of the Configuration Index. -/
def rankOfString (norb nele s : ℕ) : ℕ :=
  (stringList norb nele).indexOf s

lemma countBits_succ (n s : ℕ) :
    countBits (n + 1) s = countBits n s + (if s.testBit n then 1 else 0) := by
  unfold countBits
  rw [List.range_succ, List.countP_append]
  simp [List.countP_cons]

lemma countBits_of_lt {n s : ℕ} (h : s < 2 ^ n) :
    countBits (n + 1) s = countBits n s := by
  rw [countBits_succ, Nat.testBit_lt_two_pow h]
  simp

lemma countBits_low {n s : ℕ} :
    countBits n (2 ^ n + s) = countBits n s := by
  unfold countBits
  refine List.countP_congr ?_
  intro i hi
  rw [List.mem_range] at hi
  rw [Nat.testBit_two_pow_add_gt hi]

lemma countBits_add {n s : ℕ} (h : s < 2 ^ n) :
    countBits (n + 1) (2 ^ n + s) = countBits n s + 1 := by
  rw [countBits_succ, Nat.testBit_two_pow_add_eq, Nat.testBit_lt_two_pow h,
    countBits_low]
  simp

/-- The Configuration Index enumeration for `k` electrons in `n` orbitals has
exactly `C(n, k)` entries. -/
theorem length_stringList (n : ℕ) : ∀ k : ℕ,
    (stringList n k).length = n.choose k := by
  induction n with
  | zero =>
    intro k
    cases k with
    | zero => decide
    | succ m =>
      simp [stringList, countBits, Nat.choose]
  | succ n ih =>
    intro k
    unfold stringList
    rw [← List.countP_eq_length_filter, pow_succ, Nat.mul_two, List.range_add,
      List.countP_append, List.countP_map]
    have h1 : (List.range (2 ^ n)).countP (fun s => countBits (n + 1) s == k) =
        (List.range (2 ^ n)).countP (fun s => countBits n s == k) := by
      refine List.countP_congr ?_
      intro s hs
      rw [List.mem_range] at hs
      simp only [beq_iff_eq, countBits_of_lt hs]
    have hbase : ∀ m : ℕ, (List.range (2 ^ n)).countP
        (fun s => countBits n s == m) = n.choose m := by
      intro m
      rw [List.countP_eq_length_filter]
      exact ih m
    cases k with
    | zero =>
      have h2 : (List.range (2 ^ n)).countP
          ((fun s => countBits (n + 1) s == 0) ∘ (fun x => 2 ^ n + x)) = 0 := by
        have := List.countP_congr (l := List.range (2 ^ n))
          (p := (fun s => countBits (n + 1) s == 0) ∘ (fun x => 2 ^ n + x))
          (q := fun _ => false) ?_
        · rw [this]
          simp
        · intro s hs
          rw [List.mem_range] at hs
          simp only [Function.comp_apply, beq_iff_eq, countBits_add hs]
          simp
      rw [h1, h2, hbase 0]
      simp
    | succ m =>
      have h2 : (List.range (2 ^ n)).countP
          ((fun s => countBits (n + 1) s == (m + 1)) ∘ (fun x => 2 ^ n + x)) =
          n.choose m := by
        rw [List.countP_congr (q := fun s => countBits n s == m) ?_]
        · exact hbase m
        · intro s hs
          rw [List.mem_range] at hs
          simp only [Function.comp_apply, beq_iff_eq, countBits_add hs,
            Nat.add_right_cancel_iff]
      rw [h1, h2, hbase (m + 1), Nat.choose_succ_succ']
      omega

/-- Modelled from the spec: the parameters of the FqeData State Container
(`fqe_data.FqeData`, absent from this source tree), keyed by
`(n_alpha, n_beta, n_orbitals)` (spec section 3). -/
structure FqeData where
  nalpha : ℕ
  nbeta : ℕ
  norb : ℕ
deriving DecidableEq

/-- Modelled from the spec: `FqeData(n_alpha, n_beta, n_orbitals)` construction,
which validates `0 <= n_alpha, n_beta <= n_orbitals` (spec section 4.1). -/
def mkFqeData (nalpha nbeta norb : ℕ) : Option FqeData :=
  if nalpha ≤ norb ∧ nbeta ≤ norb then some ⟨nalpha, nbeta, norb⟩ else none

/-- Modelled from the spec: `FqeData.lena()`, the number of valid alpha
configuration strings. -/
def FqeData.lena (fd : FqeData) : ℕ := (stringList fd.norb fd.nalpha).length

/-- Modelled from the spec: `FqeData.lenb()`, the number of valid beta
configuration strings. -/
def FqeData.lenb (fd : FqeData) : ℕ := (stringList fd.norb fd.nbeta).length

/-- Modelled from the spec: `FqeData.n_electrons()`. -/
def FqeData.nElectrons (fd : FqeData) : ℕ := fd.nalpha + fd.nbeta

/-- C1: for every valid construction `FqeData(n_alpha, n_beta, n_orbitals)`
with `0 <= n_alpha, n_beta <= n_orbitals`, `lena()` is `C(n_orbitals, n_alpha)`
and `lenb()` is `C(n_orbitals, n_beta)`; `FqeData(2, 4, 10)` has
`lena() = 45` and `lenb() = 210`; and the vacuum `FqeData(0, 0, n)` is valid
with `lena() = lenb() = 1` and `n_electrons() = 0`. -/
theorem claim_C1 :
    (∀ nalpha nbeta norb fd, mkFqeData nalpha nbeta norb = some fd →
      fd.lena = norb.choose nalpha ∧ fd.lenb = norb.choose nbeta) ∧
    (∃ fd, mkFqeData 2 4 10 = some fd ∧ fd.lena = 45 ∧ fd.lenb = 210) ∧
    (∀ norb, ∃ fd, mkFqeData 0 0 norb = some fd ∧
      fd.lena = 1 ∧ fd.lenb = 1 ∧ fd.nElectrons = 0) := by
  have hgen : ∀ nalpha nbeta norb fd, mkFqeData nalpha nbeta norb = some fd →
      fd.lena = norb.choose nalpha ∧ fd.lenb = norb.choose nbeta := by
    intro nalpha nbeta norb fd hfd
    unfold mkFqeData at hfd
    split at hfd
    · cases hfd
      exact ⟨length_stringList norb nalpha, length_stringList norb nbeta⟩
    · cases hfd
  refine ⟨hgen, ⟨⟨2, 4, 10⟩, rfl, ?_, ?_⟩, ?_⟩
  · rw [(hgen 2 4 10 ⟨2, 4, 10⟩ rfl).1]
    decide
  · rw [(hgen 2 4 10 ⟨2, 4, 10⟩ rfl).2]
    decide
  · intro norb
    have hmk : mkFqeData 0 0 norb = some ⟨0, 0, norb⟩ := by
      simp [mkFqeData]
    refine ⟨⟨0, 0, norb⟩, hmk, ?_, ?_, rfl⟩
    · rw [(hgen 0 0 norb ⟨0, 0, norb⟩ hmk).1, Nat.choose_zero_right]
    · rw [(hgen 0 0 norb ⟨0, 0, norb⟩ hmk).2, Nat.choose_zero_right]

/-- Witness for C1 at the concrete input `FqeData(2, 4, 10)`. -/
theorem claim_C1_witness :
    mkFqeData 2 4 10 = some ⟨2, 4, 10⟩ ∧
    (FqeData.mk 2 4 10).lena = 45 ∧ (FqeData.mk 2 4 10).lenb = 210 :=
  have hmk : mkFqeData 2 4 10 = some ⟨2, 4, 10⟩ := rfl
  ⟨hmk, by rw [(claim_C1.1 2 4 10 ⟨2, 4, 10⟩ hmk).1]; decide,
    by rw [(claim_C1.1 2 4 10 ⟨2, 4, 10⟩ hmk).2]; decide⟩

/-- Modelled from the spec: fermionic sign contribution of an
annihilation/creation on orbital `orb` of string `s`, equal to
`(-1)^(number of occupied orbitals with strictly smaller index)`
(spec section 4.2). -/
def paritySign (s orb : ℕ) : ℤ :=
  if countBits orb s % 2 = 0 then 1 else -1

/-- Modelled from the spec: annihilate orbital `orb` of string `s`; `none`
when the occupation precondition fails (spec section 4.2). -/
def annihilateOrb (orb s : ℕ) : Option (ℕ × ℤ) :=
  if s.testBit orb then some (s ^^^ 2 ^ orb, paritySign s orb) else none

/-- Modelled from the spec: create orbital `orb` in string `s`; `none`
when the orbital is already occupied (spec section 4.2). -/
def createOrb (orb s : ℕ) : Option (ℕ × ℤ) :=
  if s.testBit orb then none else some (s ^^^ 2 ^ orb, paritySign s orb)

/-- Apply one orbital operation after another along a list, accumulating the
fermionic sign; the whole result is `none` as soon as one step fails. -/
def applyOrbList (f : ℕ → ℕ → Option (ℕ × ℤ)) (orbs : List ℕ) (sp : ℕ × ℤ) :
    Option (ℕ × ℤ) :=
  orbs.foldl (fun acc orb => acc.bind fun t =>
    (f orb t.1).map fun u => (u.1, t.2 * u.2)) (some sp)

/-- Modelled from the spec: act on string `s` with a normal-ordered excitation
given by creation list `dag` and annihilation list `undag`: each annihilation
orbital is checked and removed in the order given, then each creation orbital
is checked and inserted, with the section 4.2 sign rule. -/
def exciteString (dag undag : List ℕ) (s : ℕ) : Option (ℕ × ℤ) :=
  (applyOrbList annihilateOrb undag (s, 1)).bind (applyOrbList createOrb dag)

/-- Modelled from the spec: the Excitation Map Builder (spec section 4.2):
for the given spin species (`norb`, `nele`) and operator signature
(`dag`, `undag`), the ordered list of `(source_rank, dest_rank, sign)`
triples; configurations where an occupation precondition fails are dropped. -/
def exciteMap (norb nele : ℕ) (dag undag : List ℕ) : List (ℕ × ℕ × ℤ) :=
  (List.range (stringList norb nele).length).filterMap fun r =>
    (exciteString dag undag (stringOfRank norb nele r)).map fun tp =>
      (r, rankOfString norb nele tp.1, tp.2)

/-- Action of an excitation map on the alpha (row) index of a coefficient
matrix: the entry of `(map applied to coeff)` at `(a, b)`. -/
def mapRowAction {R : Type} [CommRing R] (m : List (ℕ × ℕ × ℤ))
    (coeff : ℕ → ℕ → R) (a b : ℕ) : R :=
  (m.map fun e => if e.2.1 = a then (e.2.2 : R) * coeff e.1 b else 0).sum

/-- Action of an excitation map on the beta (column) index of a coefficient
matrix. -/
def mapColAction {R : Type} [CommRing R] (m : List (ℕ × ℕ × ℤ))
    (coeff : ℕ → ℕ → R) (a b : ℕ) : R :=
  (m.map fun e => if e.2.1 = b then (e.2.2 : R) * coeff a e.1 else 0).sum

/-- Modelled from the spec: one-body operator application
(`FqeData._apply_array_spin1`, absent from this source tree) in the
spin-orbital block layout `[up-block | down-block]` (spec sections 3
and 4.4): the alpha block `h[i][j]` drives alpha-string excitations on the
row index and the beta block `h[norb+i][norb+j]` drives beta-string
excitations on the column index. -/
def applyArraySpin1 {R : Type} [CommRing R] (fd : FqeData) (h : ℕ → ℕ → R)
    (coeff : ℕ → ℕ → R) (a b : ℕ) : R :=
  (∑ i in Finset.range fd.norb, ∑ j in Finset.range fd.norb,
    h i j * mapRowAction (exciteMap fd.norb fd.nalpha [i] [j]) coeff a b) +
  (∑ i in Finset.range fd.norb, ∑ j in Finset.range fd.norb,
    h (fd.norb + i) (fd.norb + j) *
      mapColAction (exciteMap fd.norb fd.nbeta [i] [j]) coeff a b)

/-- Modelled from the spec: one-body operator application
(`FqeData._apply_array_spatial1`) in the spatial-orbital layout: the same
`norb x norb` matrix drives both spin species (spec section 4.4). -/
def applyArraySpatial1 {R : Type} [CommRing R] (fd : FqeData) (h : ℕ → ℕ → R)
    (coeff : ℕ → ℕ → R) (a b : ℕ) : R :=
  (∑ i in Finset.range fd.norb, ∑ j in Finset.range fd.norb,
    h i j * mapRowAction (exciteMap fd.norb fd.nalpha [i] [j]) coeff a b) +
  (∑ i in Finset.range fd.norb, ∑ j in Finset.range fd.norb,
    h i j * mapColAction (exciteMap fd.norb fd.nbeta [i] [j]) coeff a b)

/-- A dense matrix given by nested lists, as a total function with zero
padding. -/
def matOfLists {R : Type} [CommRing R] (m : List (List R)) : ℕ → ℕ → R :=
  fun i j => (m.getD i []).getD j 0

/-- Modelled from the spec: `FqeData.apply_inplace_s2` (absent from this
source tree): application of the total-spin-squared operator
`S^2 = S_z^2 + S_z + S_minus S_plus` with
`S_minus S_plus = n_beta - sum_ij (a_dag_i_alpha a_j_alpha)(a_dag_j_beta a_i_beta)`,
the cross term expanded through the Excitation Map Builder of spec
section 4.2. -/
def applyInplaceS2 (fd : FqeData) (coeff : ℕ → ℕ → ℚ) (a b : ℕ) : ℚ :=
  (((fd.nalpha : ℚ) - fd.nbeta) / 2 * (((fd.nalpha : ℚ) - fd.nbeta) / 2) +
      ((fd.nalpha : ℚ) - fd.nbeta) / 2 + fd.nbeta) * coeff a b -
  ∑ i in Finset.range fd.norb, ∑ j in Finset.range fd.norb,
    ((exciteMap fd.norb fd.nalpha [i] [j]).map fun ea =>
      if ea.2.1 = a then
        ((exciteMap fd.norb fd.nbeta [j] [i]).map fun eb =>
          if eb.2.1 = b then ((ea.2.2 * eb.2.2 : ℤ) : ℚ) * coeff ea.1 eb.1
          else 0).sum
      else 0).sum

/-- C2 counterexample: for `FqeData(1, 1, 2)` initialized with all ones,
the in-place one-body operator whose only nonzero spin-orbital entries are
`h[0][0] = 1` and `h[2][0] = 1` yields the coefficient matrix
`[[1, 1], [0, 0]]`, not the `[[2, 1], [2, 1]]` documented by the claim. -/
theorem claim_C2_counterexample :
    ((List.range 2).map fun a => (List.range 2).map fun b =>
      applyArraySpin1 (R := ℤ) ⟨1, 1, 2⟩
        (matOfLists [[1, 0, 0, 0], [0, 0, 0, 0], [1, 0, 0, 0], [0, 0, 0, 0]])
        (fun _ _ => 1) a b) = [[1, 1], [0, 0]] ∧
    ((List.range 2).map fun a => (List.range 2).map fun b =>
      applyArraySpin1 (R := ℤ) ⟨1, 1, 2⟩
        (matOfLists [[1, 0, 0, 0], [0, 0, 0, 0], [1, 0, 0, 0], [0, 0, 0, 0]])
        (fun _ _ => 1) a b) ≠ [[2, 1], [2, 1]] := by
  constructor
  · decide
  · decide

/-- C2 (amended): for `FqeData(1, 1, 2)` with the all-ones strategy, the
reference suite's first-column one-body spin operator
(`h[0][0] = h[2][0] = h[3][0] = 1`) produces `[[1, 1], [0, 0]]` and its
last-column operator (`h[0][3] = h[1][3] = h[3][3] = 1`) produces
`[[0, 1], [0, 1]]`; the `2 / 1 / -1`-valued documented matrix belongs to the
spatial one-column test: `FqeData(2, 1, 3)` all ones with spatial
`h[0][0] = h[2][0] = 1` produces `[[2, 1, 2], [2, 1, 2], [0, -1, 0]]`,
bit-exactly. -/
theorem claim_C2 :
    ((List.range 2).map fun a => (List.range 2).map fun b =>
      applyArraySpin1 (R := ℤ) ⟨1, 1, 2⟩
        (matOfLists [[1, 0, 0, 0], [0, 0, 0, 0], [1, 0, 0, 0], [1, 0, 0, 0]])
        (fun _ _ => 1) a b) = [[1, 1], [0, 0]] ∧
    ((List.range 2).map fun a => (List.range 2).map fun b =>
      applyArraySpin1 (R := ℤ) ⟨1, 1, 2⟩
        (matOfLists [[0, 0, 0, 1], [0, 0, 0, 1], [0, 0, 0, 0], [0, 0, 0, 1]])
        (fun _ _ => 1) a b) = [[0, 1], [0, 1]] ∧
    ((List.range 3).map fun a => (List.range 3).map fun b =>
      applyArraySpatial1 (R := ℤ) ⟨2, 1, 3⟩
        (matOfLists [[1, 0, 0], [0, 0, 0], [1, 0, 0]])
        (fun _ _ => 1) a b) = [[2, 1, 2], [2, 1, 2], [0, -1, 0]] := by
  refine ⟨by decide, by decide, by decide⟩

/-- C7: `apply_inplace_s2` on the all-ones `FqeData(2, 1, 3)` state produces
the documented matrix
`[[0.75, 0.75, 1.75], [0.75, -0.25, 0.75], [1.75, 0.75, 0.75]]`. -/
theorem claim_C7 :
    ((List.range 3).map fun a => (List.range 3).map fun b =>
      applyInplaceS2 ⟨2, 1, 3⟩ (fun _ _ => 1) a b) =
    [[3 / 4, 3 / 4, 7 / 4], [3 / 4, -(1 / 4), 3 / 4], [7 / 4, 3 / 4, 3 / 4]] := by
  with_unfolding_all decide

/-- Modelled from the spec: `FqeData.apply_individual_nbody_accumulate`
(absent from this source tree): applies a single normal-ordered excitation
string given by per-spin creation/annihilation orbital lists through the
Excitation Map Builder, accumulating `coefficient * sign * source` into the
destination amplitude of the target (spec section 4.4). -/
def applyIndividualNbodyAccumulate {R : Type} [CommRing R] (fd : FqeData)
    (c : R) (source target : ℕ → ℕ → R)
    (daga undaga dagb undagb : List ℕ) (a b : ℕ) : R :=
  target a b + c *
    ((exciteMap fd.norb fd.nalpha daga undaga).map fun ea =>
      if ea.2.1 = a then
        ((exciteMap fd.norb fd.nbeta dagb undagb).map fun eb =>
          if eb.2.1 = b then ((ea.2.2 * eb.2.2 : ℤ) : R) * source ea.1 eb.1
          else 0).sum
      else 0).sum

/-- C5: whenever the alpha and beta excitation maps of the requested
excitation string are both empty, `apply_individual_nbody_accumulate` is a
no-op: every coefficient of the target state is exactly unchanged, for every
scalar coefficient and source state. -/
theorem claim_C5 {R : Type} [CommRing R] (fd : FqeData) (c : R)
    (source target : ℕ → ℕ → R) (daga undaga dagb undagb : List ℕ)
    (ha : exciteMap fd.norb fd.nalpha daga undaga = [])
    (_hb : exciteMap fd.norb fd.nbeta dagb undagb = []) :
    ∀ a b, applyIndividualNbodyAccumulate fd c source target
      daga undaga dagb undagb a b = target a b := by
  intro a b
  unfold applyIndividualNbodyAccumulate
  rw [ha]
  simp

/-- Witness for C5 at the reference suite's infeasible excitation lists
`daga = [2, 0, 1]`, `undaga = [2, 1, 0]` (and the same on the beta species)
for `FqeData(2, 2, 3)`. -/
theorem claim_C5_witness :
    exciteMap 3 2 [2, 0, 1] [2, 1, 0] = [] ∧
    applyIndividualNbodyAccumulate (R := ℤ) ⟨2, 2, 3⟩ 1
      (fun _ _ => 1) (fun _ _ => 1) [2, 0, 1] [2, 1, 0] [2, 0, 1] [2, 1, 0]
      0 0 = 1 :=
  ⟨by decide,
    claim_C5 ⟨2, 2, 3⟩ 1 (fun _ _ => 1) (fun _ _ => 1)
      [2, 0, 1] [2, 1, 0] [2, 0, 1] [2, 1, 0] (by decide) (by decide) 0 0⟩

/-- Modelled from the spec: sum of diagonal one-body phases over the occupied
spin orbitals of configuration `(a, b)`, in the block spin-orbital layout
(alpha orbital `i` reads `h[i]`, beta orbital `i` reads `h[norb + i]`). -/
noncomputable def diagSum (fd : FqeData) (h : List ℂ) (a b : ℕ) : ℂ :=
  (∑ i in Finset.range fd.norb,
    if (stringOfRank fd.norb fd.nalpha a).testBit i then h.getD i 0 else 0) +
  (∑ i in Finset.range fd.norb,
    if (stringOfRank fd.norb fd.nbeta b).testBit i then h.getD (fd.norb + i) 0
    else 0)

/-- Modelled from the spec: `FqeData.evolve_diagonal(h)` (absent from this
source tree): multiplies each configuration amplitude by the exponential of
the summed per-orbital phases over occupied spin orbitals; fails with a
dimension error unless the vector length equals twice the orbital count
(spec sections 4.4 and 4.5). -/
noncomputable def evolveDiagonal (fd : FqeData) (h : List ℂ)
    (coeff : ℕ → ℕ → ℂ) : Option (ℕ → ℕ → ℂ) :=
  if h.length = 2 * fd.norb then
    some fun a b => Complex.exp (diagSum fd h a b) * coeff a b
  else none

lemma getD_map_neg (l : List ℂ) (i : ℕ) :
    (l.map Neg.neg).getD i 0 = -(l.getD i 0) := by
  induction l generalizing i with
  | nil => simp
  | cons x xs ih =>
    cases i with
    | zero => simp
    | succ j => simpa using ih j

lemma diagSum_map_neg (fd : FqeData) (h : List ℂ) (a b : ℕ) :
    diagSum fd (h.map Neg.neg) a b = -diagSum fd h a b := by
  unfold diagSum
  rw [neg_add]
  congr 1
  · rw [← Finset.sum_neg_distrib]
    refine Finset.sum_congr rfl fun i _ => ?_
    rw [getD_map_neg]
    split <;> simp
  · rw [← Finset.sum_neg_distrib]
    refine Finset.sum_congr rfl fun i _ => ?_
    rw [getD_map_neg]
    split <;> simp

/-- C6: for every diagonal one-body phase vector of length twice the orbital
count, `evolve_diagonal(h)` followed by `evolve_diagonal(-h)` returns the
original coefficients: the two evolutions compose to the identity. -/
theorem claim_C6 (fd : FqeData) (h : List ℂ) (coeff : ℕ → ℕ → ℂ)
    (hlen : h.length = 2 * fd.norb) :
    (evolveDiagonal fd h coeff).bind (evolveDiagonal fd (h.map Neg.neg)) =
      some coeff := by
  have hlen' : (h.map Neg.neg).length = 2 * fd.norb := by simpa using hlen
  unfold evolveDiagonal
  rw [if_pos hlen, Option.some_bind, if_pos hlen']
  refine congrArg some (funext fun a => funext fun b => ?_)
  rw [diagSum_map_neg, ← mul_assoc, ← Complex.exp_add, neg_add_cancel,
    Complex.exp_zero, one_mul]

/-- Witness for C6 at the concrete vacuum sector with one orbital and the
zero phase vector. -/
theorem claim_C6_witness :
    (evolveDiagonal ⟨0, 0, 1⟩ [0, 0] fun _ _ => 1).bind
      (evolveDiagonal ⟨0, 0, 1⟩ ([0, 0].map Neg.neg)) = some fun _ _ => 1 :=
  claim_C6 ⟨0, 0, 1⟩ [0, 0] (fun _ _ => 1) rfl

/-- Binary rendering of a configuration bit pattern, most significant bit
first and without leading zeros, as produced by Python's `b` format. -/
def binString (n : ℕ) : String := ⟨Nat.toDigits 2 n⟩

/-- Modelled from the spec and the repository snapshot test
(`test_data_print`): one nonzero-amplitude line of
`FqeData.print_sector` (absent from this source tree):
the alpha bitstring, a colon, the beta bitstring, a space, then the
amplitude rendering. -/
def sectorLine (astr bstr : ℕ) (amp : String) : String :=
  binString astr ++ ":" ++ binString bstr ++ " " ++ amp

/-- The per-amplitude line format asserted by the claim, with the two
bitstrings concatenated and followed by a colon and the rank. -/
def claimSectorLine (astr bstr rank : ℕ) (amp : String) : String :=
  binString astr ++ binString bstr ++ ":" ++ toString rank ++ " " ++ amp

/-- Modelled from the spec: `FqeData.print_sector` (absent from this source
tree): a header naming the particle number and spin projection, then one
line per nonzero amplitude in alpha-major rank order, each terminated by a
newline.  The floating-point rendering of each amplitude is taken as given
data. -/
def printSector (fd : FqeData) (amp : ℕ → ℕ → String)
    (nonzero : ℕ → ℕ → Bool) : String :=
  String.intercalate ("\n")
    (("Sector N = " ++ toString fd.nElectrons ++ " : S_z = " ++
        toString ((fd.nalpha : ℤ) - fd.nbeta)) ::
      ((List.range fd.lena).map fun a =>
        (List.range fd.lenb).filterMap fun b =>
          if nonzero a b then
            some (sectorLine (stringOfRank fd.norb fd.nalpha a)
              (stringOfRank fd.norb fd.nbeta b) (amp a b))
          else none).flatten) ++ "\n"

/-- The amplitude renderings of the seeded random state of the snapshot test
`test_data_print`, indexed by (alpha rank, beta rank). -/
def snapshotAmps : List (List String) :=
  [["(0.28037731872261007+0.32599673701893295j)",
    "(-0.20776778596031897-0.44964676904932527j)",
    "(-0.5982592155589743+0.8138588036401146j)"],
   ["(-0.7693909581835316+0.5010963131770999j)",
    "(-0.1070553281124611-0.28468034534579584j)",
    "(-1.281809519779826+0.44627728700958064j)"],
   ["(-1.0699984614118179+0.33282913446024576j)",
    "(1.150470965359522+0.028245225856149195j)",
    "(0.3009872766528208-0.021023741905447858j)"]]

/-- C3 counterexample: the claimed line format
`"<alpha_bitstring><beta_bitstring>:<rank> (<real>+<imag>j)"` does not
produce the documented snapshot line for the first configuration of
`FqeData(2, 1, 3)` (`alpha = 0b11`, `beta = 0b1`), whereas the format
`"<alpha_bitstring>:<beta_bitstring> (<real>+<imag>j)"` does. -/
theorem claim_C3_counterexample :
    claimSectorLine 3 1 0 ("(0.28037731872261007+0.32599673701893295j)") ≠
      "11:1 (0.28037731872261007+0.32599673701893295j)" ∧
    sectorLine 3 1 ("(0.28037731872261007+0.32599673701893295j)") =
      "11:1 (0.28037731872261007+0.32599673701893295j)" := by
  refine ⟨by decide, by decide⟩

set_option maxRecDepth 100000 in
/-- C3 (amended): `print_sector` emits a header
`"Sector N = <nele> : S_z = <nalpha - nbeta>"` followed by one line per
nonzero amplitude of the exact form
`"<alpha_bitstring>:<beta_bitstring> (<real>+<imag>j)"` (the imaginary part
carrying its own sign), in alpha-major rank order; for the seeded random
state of `FqeData(2, 1, 3)` the full output equals the documented snapshot
text, the amplitude renderings being taken as given. -/
theorem claim_C3 :
    printSector ⟨2, 1, 3⟩
      (fun a b => (snapshotAmps.getD a []).getD b ("")) (fun _ _ => true) =
    "Sector N = 3 : S_z = 1\n" ++
    "11:1 (0.28037731872261007+0.32599673701893295j)\n" ++
    "11:10 (-0.20776778596031897-0.44964676904932527j)\n" ++
    "11:100 (-0.5982592155589743+0.8138588036401146j)\n" ++
    "101:1 (-0.7693909581835316+0.5010963131770999j)\n" ++
    "101:10 (-0.1070553281124611-0.28468034534579584j)\n" ++
    "101:100 (-1.281809519779826+0.44627728700958064j)\n" ++
    "110:1 (-1.0699984614118179+0.33282913446024576j)\n" ++
    "110:10 (1.150470965359522+0.028245225856149195j)\n" ++
    "110:100 (0.3009872766528208-0.021023741905447858j)\n" := by
  with_unfolding_all decide

/-- Python-style error values raised by the modelled API boundary. -/
inductive PyError where
  | valueError : String → PyError
  | typeError : String → PyError
deriving DecidableEq

/-- Modelled from the spec and the repository tests (`test_apply_raises`,
`test_apply_inplace_empty`): the validation at the `FqeData.apply` /
`apply_inplace` boundary (the engine itself is absent from this source
tree).  Each supplied operator tensor is represented by its axis extent
(`none` for a skipped rank).  An empty tensor tuple raises a `ValueError`;
a nonempty tuple whose entries are all `None` is accepted as a no-op; a
provided extent that is neither the orbital count nor twice the orbital
count (or that disagrees with the other provided extents) raises a
`ValueError`.  The numeric engine is abstracted as `engine` and is only
reached after validation succeeds, so validation precedes any mutation. -/
def applyInplace {R : Type} [CommRing R] (fd : FqeData)
    (arrs : List (Option ℕ)) (coeff : ℕ → ℕ → R)
    (engine : List (Option ℕ) → (ℕ → ℕ → R) → (ℕ → ℕ → R)) :
    Except PyError (ℕ → ℕ → R) :=
  match arrs with
  | [] => .error (.valueError ("number of operator tensors must be nonzero"))
  | _ =>
    match arrs.filterMap id with
    | [] => .ok coeff
    | e :: rest =>
      if (e = fd.norb ∨ e = 2 * fd.norb) ∧ rest.all (fun x => x == e) then
        .ok (engine arrs coeff)
      else
        .error (.valueError ("operator extents incompatible with the orbital count"))

/-- C4 counterexample: on the reference fixture `FqeData(1, 2, 4)`,
`apply_inplace((None, None))` does not fail: it returns with every
coefficient unchanged (test `test_apply_inplace_empty`), contradicting the
claim that an all-`None` tensor tuple raises a dimension error. -/
theorem claim_C4_counterexample :
    applyInplace (R := ℤ) ⟨1, 2, 4⟩ [none, none] (fun _ _ => 0)
      (fun _ c => c) = Except.ok (fun _ _ => 0) := rfl

/-- C4 (amended): `apply` / `apply_inplace` fails with a dimension error,
raised before the numeric engine is ever invoked, whenever a supplied
tensor extent disagrees with the orbital count (for example a 2x2 one-body
tensor on a state with 4 orbitals) and whenever the tensor tuple is empty;
a nonempty tuple whose entries are all `None` is instead accepted as a
no-op that leaves every coefficient unchanged. -/
theorem claim_C4 {R : Type} [CommRing R] (fd : FqeData) (coeff : ℕ → ℕ → R)
    (engine : List (Option ℕ) → (ℕ → ℕ → R) → (ℕ → ℕ → R)) (e n : ℕ)
    (he1 : e ≠ fd.norb) (he2 : e ≠ 2 * fd.norb) (hn : n ≠ 0) :
    applyInplace fd [] coeff engine =
      Except.error (.valueError ("number of operator tensors must be nonzero")) ∧
    applyInplace fd [some e] coeff engine =
      Except.error
        (.valueError ("operator extents incompatible with the orbital count")) ∧
    applyInplace fd (List.replicate n none) coeff engine = Except.ok coeff := by
  refine ⟨rfl, ?_, ?_⟩
  · unfold applyInplace
    simp only [List.filterMap_cons, List.filterMap_nil, id_eq]
    rw [if_neg]
    rintro ⟨h1 | h2, -⟩
    · exact he1 h1
    · exact he2 h2
  · unfold applyInplace
    obtain ⟨m, rfl⟩ : ∃ m, n = m + 1 := ⟨n - 1, by omega⟩
    have hfm : (List.replicate (m + 1) (none : Option ℕ)).filterMap id = [] := by
      simp
    rw [List.replicate_succ] at hfm ⊢
    rw [hfm]

/-- Witness for C4 on the reference fixture `FqeData(1, 2, 4)` with the 2x2
one-body tensor and the pair `(None, None)`. -/
theorem claim_C4_witness :
    applyInplace (R := ℤ) ⟨1, 2, 4⟩ [] (fun _ _ => 1) (fun _ c => c) =
      Except.error (.valueError ("number of operator tensors must be nonzero")) ∧
    applyInplace (R := ℤ) ⟨1, 2, 4⟩ [some 2] (fun _ _ => 1) (fun _ c => c) =
      Except.error
        (.valueError ("operator extents incompatible with the orbital count")) ∧
    applyInplace (R := ℤ) ⟨1, 2, 4⟩ (List.replicate 2 none) (fun _ _ => 1)
      (fun _ c => c) = Except.ok (fun _ _ => 1) :=
  claim_C4 ⟨1, 2, 4⟩ (fun _ _ => 1) (fun _ c => c) 2 2
    (by decide) (by decide) (by decide)

/-- A dense operator array of a Hamiltonian (`numpy.ndarray`): its number of
axes and its flattened complex entries. -/
structure PyTensor where
  ndim : ℕ
  entries : List ℂ

/-- Python dictionary assignment `d[k] = v` on an insertion-ordered
association list: replaces the value in place when the key is present,
appends otherwise. -/
def dictAssign : List (ℕ × PyTensor) → ℕ → PyTensor → List (ℕ × PyTensor)
  | [], k, v => [(k, v)]
  | e :: rest, k, v =>
    if e.1 = k then (k, v) :: rest else e :: dictAssign rest k v

/-- Python dictionary read `d[k]` on an insertion-ordered association
list. -/
def dictGet (k : ℕ) : List (ℕ × PyTensor) → Option PyTensor
  | [] => none
  | e :: rest => if e.1 = k then some e.2 else dictGet k rest

/-- The loop of `GSOHamiltonian.__init__`
(`src/fqe/hamiltonians/gso_hamiltonian.py` lines 46-55): starting from
dictionary `d` and enumeration index `rank`, stores each remaining tensor
under key `2 * (rank + 1)`. -/
def buildTensorDict : List PyTensor → List (ℕ × PyTensor) → ℕ →
    List (ℕ × PyTensor)
  | [], d, _ => d
  | t :: ts, d, r => buildTensorDict ts (dictAssign d (2 * (r + 1)) t) (r + 1)

/-- The association list `[(2*(r+1), t_r), (2*(r+2), t_{r+1}), ...]`. -/
def seqDict : List PyTensor → ℕ → List (ℕ × PyTensor)
  | [], _ => []
  | t :: ts, r => (2 * (r + 1), t) :: seqDict ts (r + 1)

/-- Positional lookup in a tensor list. -/
def lgetOpt : List PyTensor → ℕ → Option PyTensor
  | [], _ => none
  | t :: _, 0 => some t
  | _ :: ts, r + 1 => lgetOpt ts r

/-- The GSO (generalized spin orbital) Hamiltonian: its `_tensor`
dictionary, keyed by `2 * (rank + 1)` (gso_hamiltonian.py line 55). -/
structure GSOHamiltonian where
  tdict : List (ℕ × PyTensor)

/-- `GSOHamiltonian.__init__`: requires a nonempty tensor tuple (the
`assert self._tensor` on lines 57-59) in which every array has an even
number of axes (the assertion on line 53), and stores tensor `rank` under
dictionary key `2 * (rank + 1)`. -/
def mkGSOHamiltonian (ts : List PyTensor) : Option GSOHamiltonian :=
  if (!ts.isEmpty) && ts.all (fun t => t.ndim % 2 == 0) then
    some ⟨buildTensorDict ts [] 0⟩
  else none

/-- `GSOHamiltonian.tensors()` (lines 93-98): reads the stored dictionary at
keys `2 * (rank + 1)` for `rank` below the dictionary size, in order. -/
def GSOHamiltonian.tensorsFn (H : GSOHamiltonian) : List PyTensor :=
  (List.range H.tdict.length).filterMap fun r => dictGet (2 * (r + 1)) H.tdict

/-- Elementwise scalar multiplication of a tensor. -/
noncomputable def scaleTensor (z : ℂ) (T : PyTensor) : PyTensor :=
  ⟨T.ndim, T.entries.map fun w => z * w⟩

/-- `GSOHamiltonian.iht(time)` (lines 68-75): the stored tensors, in rank
order, each multiplied elementwise by `-1j * time`. -/
noncomputable def GSOHamiltonian.iht (H : GSOHamiltonian) (time : ℝ) :
    List PyTensor :=
  (List.range H.tdict.length).filterMap fun r =>
    (dictGet (2 * (r + 1)) H.tdict).map (scaleTensor (-Complex.I * time))

/-- `GSOHamiltonian.rank()` (lines 81-83). -/
def GSOHamiltonian.rank (H : GSOHamiltonian) : ℕ := 2 * H.tdict.length

/-- `GSOHamiltonian.quadratic()` together with its initialization on lines
61-64: true when the dictionary has exactly one entry and holds key 2. -/
def GSOHamiltonian.quadratic (H : GSOHamiltonian) : Bool :=
  (H.tdict.length == 1) && ((H.tdict.map Prod.fst).contains 2)

lemma dictAssign_fresh (d : List (ℕ × PyTensor)) (k : ℕ) (v : PyTensor)
    (h : ∀ e ∈ d, e.1 ≠ k) : dictAssign d k v = d ++ [(k, v)] := by
  induction d with
  | nil => rfl
  | cons e rest ih =>
    unfold dictAssign
    rw [if_neg (h e (List.mem_cons_self e rest))]
    rw [ih fun x hx => h x (List.mem_cons_of_mem e hx)]
    rfl

lemma buildTensorDict_eq (ts : List PyTensor) :
    ∀ (d : List (ℕ × PyTensor)) (r : ℕ),
      (∀ e ∈ d, e.1 < 2 * (r + 1)) →
      buildTensorDict ts d r = d ++ seqDict ts r := by
  induction ts with
  | nil => intro d r _; exact (List.append_nil d).symm
  | cons t ts ih =>
    intro d r hd
    unfold buildTensorDict seqDict
    rw [dictAssign_fresh d _ t fun e he => Nat.ne_of_lt (hd e he)]
    rw [ih (d ++ [(2 * (r + 1), t)]) (r + 1) ?_]
    · rw [List.append_assoc]
      rfl
    · intro e he
      rcases List.mem_append.mp he with h | h
      · exact Nat.lt_trans (hd e h) (by omega)
      · rcases List.mem_singleton.mp h with rfl
        omega

lemma tdict_of_mk {ts : List PyTensor} {H : GSOHamiltonian}
    (hH : mkGSOHamiltonian ts = some H) : H.tdict = seqDict ts 0 := by
  unfold mkGSOHamiltonian at hH
  split at hH
  · cases hH
    exact buildTensorDict_eq ts [] 0 (by simp)
  · cases hH

lemma length_seqDict (ts : List PyTensor) : ∀ r,
    (seqDict ts r).length = ts.length := by
  induction ts with
  | nil => intro r; rfl
  | cons t ts ih => intro r; simpa [seqDict] using ih (r + 1)

lemma dictGet_seqDict (ts : List PyTensor) : ∀ r s,
    dictGet (2 * (r + s + 1)) (seqDict ts r) = lgetOpt ts s := by
  induction ts with
  | nil => intro r s; rfl
  | cons t ts ih =>
    intro r s
    cases s with
    | zero => simp [seqDict, dictGet, lgetOpt]
    | succ m =>
      unfold seqDict dictGet
      rw [if_neg (by omega)]
      have := ih (r + 1) m
      rw [show 2 * (r + 1 + m + 1) = 2 * (r + (m + 1) + 1) by omega] at this
      exact this

lemma filterMap_lgetOpt (ts : List PyTensor) :
    ((List.range ts.length).filterMap fun r => lgetOpt ts r) = ts := by
  induction ts with
  | nil => rfl
  | cons t ts ih =>
    rw [List.length_cons, List.range_succ_eq_map, List.filterMap_cons,
      List.filterMap_map]
    show t :: ((List.range ts.length).filterMap fun r => lgetOpt ts r) =
      t :: ts
    rw [ih]

lemma filterMap_lgetOpt_map (f : PyTensor → PyTensor) (ts : List PyTensor) :
    ((List.range ts.length).filterMap fun r => (lgetOpt ts r).map f) =
      ts.map f := by
  induction ts with
  | nil => rfl
  | cons t ts ih =>
    rw [List.length_cons, List.range_succ_eq_map, List.filterMap_cons,
      List.filterMap_map]
    show f t :: ((List.range ts.length).filterMap fun r =>
      (lgetOpt ts r).map f) = f t :: ts.map f
    rw [ih]

/-- C8: for every successfully constructed `GSOHamiltonian` and every time,
`iht(time)` returns the tuple of tensors each multiplied elementwise by
`-1j * time`, in the same rank order in which `tensors()` returns the
stored tensors. -/
theorem claim_C8 (ts : List PyTensor) (H : GSOHamiltonian) (time : ℝ)
    (hH : mkGSOHamiltonian ts = some H) :
    H.tensorsFn = ts ∧
    H.iht time = ts.map (scaleTensor (-Complex.I * time)) := by
  have htd := tdict_of_mk hH
  have hget : ∀ r, dictGet (2 * (r + 1)) H.tdict = lgetOpt ts r := by
    intro r
    rw [htd]
    have := dictGet_seqDict ts 0 r
    rw [show 2 * (0 + r + 1) = 2 * (r + 1) by omega] at this
    exact this
  have hlen : H.tdict.length = ts.length := by rw [htd]; exact length_seqDict ts 0
  constructor
  · unfold GSOHamiltonian.tensorsFn
    rw [hlen]
    calc ((List.range ts.length).filterMap fun r => dictGet (2 * (r + 1)) H.tdict)
        = (List.range ts.length).filterMap fun r => lgetOpt ts r :=
          List.filterMap_congr fun r _ => hget r
      _ = ts := filterMap_lgetOpt ts
  · unfold GSOHamiltonian.iht
    rw [hlen]
    calc ((List.range ts.length).filterMap fun r =>
          (dictGet (2 * (r + 1)) H.tdict).map (scaleTensor (-Complex.I * time)))
        = (List.range ts.length).filterMap fun r =>
          (lgetOpt ts r).map (scaleTensor (-Complex.I * time)) :=
          List.filterMap_congr fun r _ => by rw [hget r]
      _ = ts.map (scaleTensor (-Complex.I * time)) :=
          filterMap_lgetOpt_map (scaleTensor (-Complex.I * time)) ts

/-- Witness for C8 at the one-tensor input `(t,)` with `t.ndim = 2` and
`time = 0`. -/
theorem claim_C8_witness :
    (GSOHamiltonian.mk [(2, ⟨2, []⟩)]).tensorsFn = [⟨2, []⟩] ∧
    (GSOHamiltonian.mk [(2, ⟨2, []⟩)]).iht 0 =
      [⟨2, []⟩].map (scaleTensor (-Complex.I * (0 : ℝ))) :=
  claim_C8 [⟨2, []⟩] (GSOHamiltonian.mk [(2, ⟨2, []⟩)]) 0 rfl

/-- C9: for every successfully constructed `GSOHamiltonian`, `quadratic()`
returns true if and only if exactly one tensor was passed to the
constructor, in which case that tensor is stored under key 2 and `rank()`
returns 2; for two or more tensors `quadratic()` returns false. -/
theorem claim_C9 (ts : List PyTensor) (H : GSOHamiltonian)
    (hH : mkGSOHamiltonian ts = some H) :
    (H.quadratic = true ↔ ts.length = 1) ∧
    (ts.length = 1 → dictGet 2 H.tdict = lgetOpt ts 0 ∧ H.rank = 2) ∧
    (2 ≤ ts.length → H.quadratic = false) := by
  have htd := tdict_of_mk hH
  have hlen : H.tdict.length = ts.length := by
    rw [htd]; exact length_seqDict ts 0
  have hquad : H.quadratic = true ↔ ts.length = 1 := by
    unfold GSOHamiltonian.quadratic
    constructor
    · intro hq
      rcases Bool.and_eq_true_iff.mp hq with ⟨h1, -⟩
      rw [← hlen]
      simpa using h1
    · intro h1
      rcases List.length_eq_one.mp h1 with ⟨t, rfl⟩
      rw [htd]
      rfl
  refine ⟨hquad, ?_, ?_⟩
  · intro h1
    rcases List.length_eq_one.mp h1 with ⟨t, rfl⟩
    refine ⟨by rw [htd]; rfl, ?_⟩
    unfold GSOHamiltonian.rank
    rw [hlen]
    rfl
  · intro h2
    cases hq : H.quadratic with
    | false => rfl
    | true =>
      have := hquad.mp hq
      omega

/-- Witness for C9 at the one-tensor input `(t,)` with `t.ndim = 4`. -/
theorem claim_C9_witness :
    ((GSOHamiltonian.mk [(2, ⟨4, []⟩)]).quadratic = true ↔
      ([⟨4, []⟩] : List PyTensor).length = 1) ∧
    (([⟨4, []⟩] : List PyTensor).length = 1 →
      dictGet 2 (GSOHamiltonian.mk [(2, ⟨4, []⟩)]).tdict =
        lgetOpt [⟨4, []⟩] 0 ∧
      (GSOHamiltonian.mk [(2, ⟨4, []⟩)]).rank = 2) ∧
    (2 ≤ ([⟨4, []⟩] : List PyTensor).length →
      (GSOHamiltonian.mk [(2, ⟨4, []⟩)]).quadratic = false) :=
  claim_C9 [⟨4, []⟩] (GSOHamiltonian.mk [(2, ⟨4, []⟩)]) rfl

/-- A generalized-doubles generator tensor
(`generalized_doubles_factorization.py`): a rank-4 array over `nso` spin
orbitals whose complex entries are kept as exact (real, imaginary) pairs. -/
structure GenTensor where
  nso : ℕ
  entry : ℕ → ℕ → ℕ → ℕ → ℚ × ℚ

/-- The `np.allclose(generator_tensor.imag, 0)` gate of
`doubles_factorization` (line 35), idealized to exact zero imaginary
parts. -/
def tensorIsReal (T : GenTensor) : Bool :=
  (List.range T.nso).all fun p => (List.range T.nso).all fun q =>
    (List.range T.nso).all fun r => (List.range T.nso).all fun s =>
      (T.entry p q r s).2 == 0

/-- `doubles_factorization(generator_tensor, eig_cutoff)` (lines 16-85):
first the realness gate raising a `TypeError`, then the odd-`eig_cutoff`
gate raising a `ValueError`; everything after these gates (building the
generator matrix, its symmetry check, the SVD and the operator assembly) is
abstracted as `rest`, which is reached only when both gates pass. -/
def doublesFactorization {α : Type} (rest : GenTensor → Except PyError α)
    (T : GenTensor) (eigCutoff : Option ℤ) : Except PyError α :=
  if tensorIsReal T = false then
    .error (.typeError ("generator_tensor must be a real matrix"))
  else
    match eigCutoff with
    | some c =>
      if c % 2 ≠ 0 then .error (.valueError ("eig_cutoff must be an even number"))
      else rest T
    | none => rest T

/-- `doubles_factorization2(generator_tensor, eig_cutoff)` (lines 164-215):
the odd-`eig_cutoff` gate is the first statement; the reshaping, the Takagi
decomposition and the assembly of the factors are abstracted as `rest`,
reached only when the gate passes. -/
def doublesFactorization2 {α : Type} (rest : GenTensor → Except PyError α)
    (T : GenTensor) (eigCutoff : Option ℤ) : Except PyError α :=
  match eigCutoff with
  | some c =>
    if c % 2 ≠ 0 then .error (.valueError ("eig_cutoff must be an even number"))
    else rest T
  | none => rest T

/-- C10 counterexample: with a complex-valued generator tensor (an entry
with imaginary part 1) and the odd cutoff 3, `doubles_factorization` raises
the realness `TypeError` first, not the claimed `ValueError`. -/
theorem claim_C10_counterexample :
    doublesFactorization (fun _ => Except.ok (0 : ℕ))
      ⟨1, fun _ _ _ _ => (0, 1)⟩ (some 3) =
      Except.error (.typeError ("generator_tensor must be a real matrix")) ∧
    PyError.typeError ("generator_tensor must be a real matrix") ≠
      PyError.valueError ("eig_cutoff must be an even number") := by
  refine ⟨?_, by decide⟩
  with_unfolding_all rfl

/-- C10 (amended): `doubles_factorization2` raises a `ValueError` whenever
the optional `eig_cutoff` argument is provided and odd, before any
decomposition of the generator tensor is computed (the result does not
depend on the decomposition stage at all); `doubles_factorization` does the
same provided the generator tensor passes its realness gate, which runs
first and raises a `TypeError` on a complex-valued tensor. -/
theorem claim_C10 {α : Type} (rest1 rest2 : GenTensor → Except PyError α)
    (T1 T2 : GenTensor) (c : ℤ) (hodd : c % 2 ≠ 0)
    (hreal : tensorIsReal T1 = true) :
    doublesFactorization rest1 T1 (some c) =
      Except.error (.valueError ("eig_cutoff must be an even number")) ∧
    doublesFactorization2 rest2 T2 (some c) =
      Except.error (.valueError ("eig_cutoff must be an even number")) := by
  constructor
  · unfold doublesFactorization
    rw [hreal, if_neg (by simp)]
    simp only [if_pos hodd]
  · unfold doublesFactorization2
    simp only [if_pos hodd]

/-- Witness for C10 at a real one-spin-orbital tensor and `eig_cutoff = 3`. -/
theorem claim_C10_witness :
    doublesFactorization (fun _ => Except.ok (0 : ℕ))
      ⟨1, fun _ _ _ _ => (0, 0)⟩ (some 3) =
      Except.error (.valueError ("eig_cutoff must be an even number")) ∧
    doublesFactorization2 (fun _ => Except.ok (0 : ℕ))
      ⟨1, fun _ _ _ _ => (0, 0)⟩ (some 3) =
      Except.error (.valueError ("eig_cutoff must be an even number")) :=
  claim_C10 (fun _ => Except.ok 0) (fun _ => Except.ok 0)
    ⟨1, fun _ _ _ _ => (0, 0)⟩ ⟨1, fun _ _ _ _ => (0, 0)⟩ 3
    (by decide) (by with_unfolding_all decide)

end FqeSpec
